import Mathlib

/-!
Verification of the streaming conversation service (llm-service-boilerplate).

This file shallowly embeds the parts of the repository that the checked
properties speak about:

* `event_generator` — the SSE generator of
  `src/modules/langchain/http_handlers/conversation.py` (lines 61–103),
  which yields a `session` event, one `message` event per chunk produced by
  the agent while accumulating `full_response`, then a `done` event, or an
  `error` event when the agent raises.
* the web chat stream of `src/modules/web/http_handlers/chat.py`
  (`send_message.generate`, lines 225–291): a producer task
  (`stream_agent`) publishing chunk/done/error items into a queue, a
  keepalive task publishing `None` markers while `done_event` is unset, and
  a consumer loop draining the queue, modelled as a small state machine
  driven by an explicit scheduler.
* the session service over its MongoDB collection
  (`src/modules/langchain/services/session_service.py`) with the documents
  of `src/shared/models/sessions_model.py`.
* `ConversationAgent.get_history` of
  `src/modules/langchain/agents/conversation_agent.py`.

Machine-level details that the code leaves to Python are made explicit:
wall-clock readings (`utc_now`) and freshly generated UUIDs become
parameters, MongoDB documents become a structure with every key the code
writes, and Python truthiness on strings (`"" or x`) becomes an explicit
empty-string test.
-/

namespace LlmService

/-! ## SSE events of the `/conversation` endpoint

`conversation.py` yields dictionaries with an `event` tag (`session`,
`message`, `done`, `error`) and a JSON payload; the payload fields below are
exactly the ones the handler writes. -/

inductive SSEEvent where
  | session (session_id thread_id user_id : String)
  | message (chunk : String)
  | done (full_response session_id thread_id : String)
  | error (error : String)
deriving DecidableEq, Repr

def SSEEvent.isTerminal : SSEEvent → Bool
  | .done _ _ _ => true
  | .error _ => true
  | _ => false

def SSEEvent.isFragment : SSEEvent → Bool
  | .message _ => true
  | _ => false

/-- The chunk text of a `message` event, if any. -/
def SSEEvent.fragmentText : SSEEvent → Option String
  | .message c => some c
  | _ => none

/-- The `async for` loop of `event_generator` (conversation.py lines 80–97):
for each chunk the accumulator grows by `full_response += chunk` and a
`message` event is yielded; when the agent's stream is exhausted a `done`
event carrying the accumulator is yielded, and when the agent raised after
the listed chunks the `except` clause yields a single `error` event. -/
def streamEvents (sid tid : String) (failure : Option String) :
    List String → String → List SSEEvent
  | [], acc =>
      match failure with
      | none => [.done acc sid tid]
      | some e => [.error e]
  | c :: rest, acc => .message c :: streamEvents sid tid failure rest (acc ++ c)

/-- `event_generator` of conversation.py (lines 61–103): yields the
`session` event, then the stream loop.  The agent's behaviour is the pair
`(chunks, failure)`: the chunks it yields in order, and `some msg` when it
raises (message `msg`) after those chunks, `none` when it completes. -/
def event_generator (sid tid uid : String) (chunks : List String)
    (failure : Option String) : List SSEEvent :=
  .session sid tid uid :: streamEvents sid tid failure chunks ""

/-- Texts of the fragment (`message`) events of a sequence, in order. -/
def fragmentTexts (evs : List SSEEvent) : List String :=
  evs.filterMap SSEEvent.fragmentText

/-- The terminal event produced when the loop ends with accumulator `acc`. -/
def terminalEvent (sid tid acc : String) : Option String → SSEEvent
  | none => .done acc sid tid
  | some e => .error e

theorem streamEvents_eq (sid tid : String) (failure : Option String) :
    ∀ (chunks : List String) (acc : String),
      streamEvents sid tid failure chunks acc =
        chunks.map SSEEvent.message ++
          [terminalEvent sid tid (chunks.foldl (· ++ ·) acc) failure] := by
  intro chunks
  induction chunks with
  | nil => intro acc; cases failure <;> simp [streamEvents, terminalEvent]
  | cons c rest ih => intro acc; simp [streamEvents, ih]

/-- Closed form of the whole generated sequence. -/
theorem event_generator_eq (sid tid uid : String) (chunks : List String)
    (failure : Option String) :
    event_generator sid tid uid chunks failure =
      .session sid tid uid :: chunks.map SSEEvent.message ++
        [terminalEvent sid tid (chunks.foldl (· ++ ·) "") failure] := by
  simp [event_generator, streamEvents_eq]

theorem terminalEvent_isTerminal (sid tid acc : String) (failure : Option String) :
    (terminalEvent sid tid acc failure).isTerminal = true := by
  cases failure <;> rfl

theorem isTerminal_message (c : String) :
    (SSEEvent.message c).isTerminal = false := rfl

theorem fragmentTexts_event_generator (sid tid uid : String)
    (chunks : List String) (failure : Option String) :
    fragmentTexts (event_generator sid tid uid chunks failure) = chunks := by
  rw [event_generator_eq]
  cases failure <;>
    simp [fragmentTexts, SSEEvent.fragmentText, terminalEvent,
      List.filterMap_append, List.filterMap_map, Function.comp_def,
      List.filterMap_some]

/-! ## Web chat stream (`chat.py`, `send_message.generate`, lines 225–291)

`stream_agent` publishes `{"chunk": text}` per agent chunk, then
`{"done": True}` on success or `{"error": msg}` on exception, and finally
sets `done_event`.  The keepalive task publishes `None` whenever its 15 s
wait on `done_event` times out.  The consumer loop dequeues: `None` becomes
an SSE comment line, a dict becomes a `data:` line, and the loop breaks
right after an item whose `done` or `error` value is truthy (an `error`
item with an empty `str(e)` does not break); a 60 s `wait_for` timeout on
the queue emits one comment line and breaks only if `done_event` is set.
The model
below is an interleaving state machine over these three activities; a move
list plays the role of the scheduler.  Queue reads are atomic: a consumer
read-timeout can occur only while the queue is empty. -/

/-- Items `stream_agent` publishes into the `asyncio.Queue`; the `None`
keepalive marker is modelled as `Option.none` around this type. -/
inductive QItem where
  | chunk (text : String)
  | done
  | error (msg : String)
deriving DecidableEq, Repr

def QItem.isTerminal : QItem → Bool
  | .chunk _ => false
  | .done => true
  | .error _ => true

/-- The break check of the consumer loop (chat.py line 276):
`item.get("done") or item.get("error")` under Python truthiness — chunk
items carry neither key, `done` items carry `True`, and `error` items
carry `str(e)`, which is truthy exactly when non-empty.  An `error` item
with an empty message is a terminal logical event that does NOT break the
loop. -/
def QItem.breaksLoop : QItem → Bool
  | .chunk _ => false
  | .done => true
  | .error msg => !(msg == "")

theorem isTerminal_of_breaksLoop (i : QItem) (h : i.breaksLoop = true) :
    i.isTerminal = true := by
  cases i <;> simp_all [QItem.breaksLoop, QItem.isTerminal]

/-- All items `stream_agent` publishes for one turn, in publication order
(chat.py lines 229–245): the chunks the agent yielded, then `done` when its
stream completed, or `error msg` when it raised after those chunks. -/
def producerItems (chunks : List String) (failure : Option String) : List QItem :=
  match failure with
  | none => chunks.map .chunk ++ [.done]
  | some e => chunks.map .chunk ++ [.error e]

/-- The terminal queue item of a turn. -/
def webTerminal : Option String → QItem
  | none => .done
  | some e => .error e

/-- A line yielded by the consumer loop: an SSE keepalive comment
(`": keepalive"`) or a `data:` line for a queue item. -/
inductive OutLine where
  | keepalive
  | data (item : QItem)
deriving DecidableEq, Repr

def OutLine.dataItem : OutLine → Option QItem
  | .data i => some i
  | .keepalive => none

/-- The logical (non-keepalive) events of the yielded lines, in order. -/
def deliveredItems (out : List OutLine) : List QItem :=
  out.filterMap OutLine.dataItem

/-- `true` when no item of the list is terminal. -/
def noTerminal : List QItem → Bool
  | [] => true
  | i :: rest => !i.isTerminal && noTerminal rest

/-- State of one turn of `send_message.generate`. -/
structure WebState where
  remaining : List QItem
  queue : List (Option QItem)
  doneFlag : Bool
  out : List OutLine
  finished : Bool
deriving DecidableEq, Repr

/-- Scheduler moves: `prod` = `stream_agent` publishes its next item,
`prodDone` = its `finally` sets `done_event`, `keep` = the keepalive task's
15 s wait times out and publishes `None`, `cons` = the consumer dequeues
one item, `consTimeout` = the consumer's 60 s `wait_for(queue.get())` times
out on an empty queue. -/
inductive Mv where
  | prod
  | prodDone
  | keep
  | cons
  | consTimeout
deriving DecidableEq, Repr

def step (s : WebState) : Mv → WebState
  | .prod =>
      match s.remaining with
      | [] => s
      | i :: r => { s with remaining := r, queue := s.queue ++ [some i] }
  | .prodDone =>
      if s.remaining.isEmpty then { s with doneFlag := true } else s
  | .keep =>
      if s.doneFlag then s else { s with queue := s.queue ++ [none] }
  | .cons =>
      if s.finished then s
      else
        match s.queue with
        | [] => s
        | none :: q => { s with queue := q, out := s.out ++ [.keepalive] }
        | some i :: q =>
            { s with queue := q, out := s.out ++ [.data i],
                     finished := i.breaksLoop }
  | .consTimeout =>
      if s.finished || !s.queue.isEmpty then s
      else { s with out := s.out ++ [.keepalive], finished := s.doneFlag }

/-- Start of a turn whose agent behaviour is `(chunks, failure)`. -/
def initState (chunks : List String) (failure : Option String) : WebState :=
  { remaining := producerItems chunks failure, queue := [], doneFlag := false,
    out := [], finished := false }

def run (s : WebState) : List Mv → WebState
  | [] => s
  | m :: ms => run (step s m) ms

theorem producerItems_eq (chunks : List String) (failure : Option String) :
    producerItems chunks failure = chunks.map QItem.chunk ++ [webTerminal failure] := by
  cases failure <;> rfl

theorem noTerminal_chunkItems (chunks : List String) :
    noTerminal (chunks.map QItem.chunk) = true := by
  induction chunks with
  | nil => rfl
  | cons c rest ih => simp [noTerminal, QItem.isTerminal, ih]

theorem deliveredItems_append (a b : List OutLine) :
    deliveredItems (a ++ b) = deliveredItems a ++ deliveredItems b := by
  simp [deliveredItems]

theorem noTerminal_append (a b : List QItem) :
    noTerminal (a ++ b) = (noTerminal a && noTerminal b) := by
  induction a with
  | nil => simp [noTerminal]
  | cons i rest ih => simp [noTerminal, ih, Bool.and_assoc]

theorem noTerminal_producerItems (chunks : List String) (failure : Option String) :
    noTerminal (producerItems chunks failure) = false := by
  cases failure <;>
    simp [producerItems, noTerminal_append, noTerminal, QItem.isTerminal]

/-- `true` when no item of the list passes the consumer's break check. -/
def noBreak : List QItem → Bool
  | [] => true
  | i :: rest => !i.breaksLoop && noBreak rest

theorem noBreak_append (a b : List QItem) :
    noBreak (a ++ b) = (noBreak a && noBreak b) := by
  induction a with
  | nil => simp [noBreak]
  | cons i rest ih => simp [noBreak, ih, Bool.and_assoc]

theorem breaksLoop_eq_false_of_noBreak (l : List QItem) (x : QItem)
    (hnb : noBreak l = true) (hx : x ∈ l) : x.breaksLoop = false := by
  induction l with
  | nil => exact absurd hx (List.not_mem_nil x)
  | cons a rest ih =>
      rw [noBreak, Bool.and_eq_true] at hnb
      rcases List.mem_cons.mp hx with rfl | hx2
      · cases hxx : x.breaksLoop with
        | false => rfl
        | true => rw [hxx] at hnb; exact Bool.noConfusion hnb.1
      · exact ih hnb.2 hx2

theorem webTerminal_mem_producerItems (chunks : List String)
    (failure : Option String) :
    webTerminal failure ∈ producerItems chunks failure := by
  rw [producerItems_eq]
  exact List.mem_append_right _ (List.mem_singleton.mpr rfl)

/-- Items drawn from a producer sequence whose terminal breaks the loop:
if none of them breaks the loop, none of them is terminal either (the
chunk items are not terminal, and the only terminal item breaks). -/
theorem noTerminal_of_noBreak (chunks : List String) (failure : Option String)
    (l : List QItem) (hnb : noBreak l = true)
    (hsub : ∀ x ∈ l, x ∈ producerItems chunks failure)
    (ht : (webTerminal failure).breaksLoop = true) :
    noTerminal l = true := by
  induction l with
  | nil => rfl
  | cons a rest ih =>
      rw [noBreak, Bool.and_eq_true] at hnb
      have hmem := hsub a (List.mem_cons_self a rest)
      rw [producerItems_eq] at hmem
      rcases List.mem_append.mp hmem with hm | hm
      · obtain ⟨c, _, hac⟩ := List.mem_map.mp hm
        rw [noTerminal, ← hac]
        simp only [QItem.isTerminal, Bool.not_false, Bool.true_and]
        exact ih hnb.2 (fun x hx => hsub x (List.mem_cons_of_mem a hx))
      · rw [List.mem_singleton] at hm
        rw [hm, ht] at hnb
        exact Bool.noConfusion hnb.1

/-- A list of items that ends in a lone terminal after a terminal-free body
cannot continue past a terminal member: whatever follows the front part
containing a terminal is empty. -/
theorem terminal_in_front_closes (d : List QItem) :
    ∀ (e body : List QItem) (t x : QItem),
      d ++ e = body ++ [t] → noTerminal body = true → x ∈ d →
      x.isTerminal = true → e = [] := by
  induction d with
  | nil =>
      intro e body t x _ _ hx _
      exact absurd hx (List.not_mem_nil x)
  | cons a d ih =>
      intro e body t x heq hbody hx hxt
      cases body with
      | nil =>
          rw [List.nil_append] at heq
          rw [List.cons_append] at heq
          have h1 := List.cons_eq_cons.mp heq
          exact (List.append_eq_nil.mp h1.2).2
      | cons b body =>
          rw [List.cons_append, List.cons_append] at heq
          have h1 := List.cons_eq_cons.mp heq
          have hb : b.isTerminal = false ∧ noTerminal body = true := by
            have := hbody
            rw [noTerminal] at this
            exact ⟨by
              cases hbb : b.isTerminal with
              | false => rfl
              | true => rw [hbb] at this; exact Bool.noConfusion this,
              by
              cases hnb : noTerminal body with
              | true => rfl
              | false => rw [hnb, Bool.and_false] at this; exact Bool.noConfusion this⟩
          rcases List.mem_cons.mp hx with rfl | hx2
          · rw [h1.1] at hxt
            rw [hb.1] at hxt
            exact Bool.noConfusion hxt
          · exact ih e body t x h1.2 hb.2 hx2 hxt

/-- Turn-state invariant: published-but-unconsumed items plus unpublished
items complete the delivered ones to the full producer sequence; the done
flag only rises after everything is published; while the loop runs no
delivered item passes the break check; once it has exited everything was
delivered, and — when the turn's terminal item passes the break check,
i.e. except for an `error` with empty `str(e)` — the terminal `data:` line
is the very last line yielded. -/
structure WebInv (chunks : List String) (failure : Option String)
    (s : WebState) : Prop where
  conserve :
    deliveredItems s.out ++ s.queue.filterMap id ++ s.remaining
      = producerItems chunks failure
  done_remaining : s.doneFlag = true → s.remaining = []
  streaming_noBreak : s.finished = false →
    noBreak (deliveredItems s.out) = true
  finished_delivered : s.finished = true →
    deliveredItems s.out = producerItems chunks failure
  finished_shape : s.finished = true →
    (webTerminal failure).breaksLoop = true →
    ∃ pre i, s.out = pre ++ [.data i] ∧ i.isTerminal = true ∧
      noTerminal (deliveredItems pre) = true

theorem webInv_step (chunks : List String) (failure : Option String)
    (s : WebState) (m : Mv) (h : WebInv chunks failure s) :
    WebInv chunks failure (step s m) := by
  obtain ⟨hc, hd, h3, h4, h5⟩ := h
  cases m with
  | prod =>
      cases hr : s.remaining with
      | nil => simp only [step, hr]; exact ⟨hc, hd, h3, h4, h5⟩
      | cons i r =>
          simp only [step, hr]
          refine ⟨?_, ?_, h3, h4, h5⟩
          · rw [hr] at hc
            simpa [List.filterMap_append, List.append_assoc] using hc
          · intro hdf
            rw [hd hdf] at hr
            cases hr
  | prodDone =>
      simp only [step]
      split
      · next he =>
          exact ⟨hc, fun _ => List.isEmpty_iff.mp he, h3, h4, h5⟩
      · exact ⟨hc, hd, h3, h4, h5⟩
  | keep =>
      simp only [step]
      split
      · exact ⟨hc, hd, h3, h4, h5⟩
      · refine ⟨?_, hd, h3, h4, h5⟩
        simpa [List.filterMap_append] using hc
  | cons =>
      simp only [step]
      split
      · exact ⟨hc, hd, h3, h4, h5⟩
      · next hsf =>
          have hsf' : s.finished = false := by
            cases hx : s.finished with
            | false => rfl
            | true => exact absurd hx hsf
          cases hq : s.queue with
          | nil => exact ⟨hc, hd, h3, h4, h5⟩
          | cons o q =>
              cases o with
              | none =>
                  refine ⟨?_, hd, ?_, ?_, ?_⟩
                  · rw [hq] at hc
                    simpa [deliveredItems_append, deliveredItems,
                      OutLine.dataItem] using hc
                  · intro _
                    simpa [deliveredItems_append, deliveredItems,
                      OutLine.dataItem] using h3 hsf'
                  · intro hx
                    simp only [hsf'] at hx
                    cases hx
                  · intro hx
                    simp only [hsf'] at hx
                    cases hx
              | some i =>
                  have hsub : ∀ x ∈ deliveredItems s.out,
                      x ∈ producerItems chunks failure := by
                    intro x hx
                    rw [← hc]
                    exact List.mem_append_left _ (List.mem_append_left _ hx)
                  cases hbr : i.breaksLoop with
                  | false =>
                      refine ⟨?_, hd, ?_, ?_, ?_⟩
                      · rw [hq] at hc
                        simpa [deliveredItems_append, deliveredItems,
                          OutLine.dataItem, List.append_assoc] using hc
                      · intro _
                        simpa [deliveredItems_append, deliveredItems,
                          OutLine.dataItem, noBreak_append, noBreak, hbr]
                          using h3 hsf'
                      · intro hx
                        replace hx : i.breaksLoop = true := hx
                        rw [hbr] at hx
                        exact Bool.noConfusion hx
                      · intro hx
                        replace hx : i.breaksLoop = true := hx
                        rw [hbr] at hx
                        exact Bool.noConfusion hx
                  | true =>
                      have hterm : i.isTerminal = true :=
                        isTerminal_of_breaksLoop i hbr
                      refine ⟨?_, hd, ?_, ?_, ?_⟩
                      · rw [hq] at hc
                        simpa [deliveredItems_append, deliveredItems,
                          OutLine.dataItem, List.append_assoc] using hc
                      · intro hx
                        replace hx : i.breaksLoop = false := hx
                        rw [hbr] at hx
                        exact Bool.noConfusion hx
                      · intro _
                        rw [hq] at hc
                        have heq : (deliveredItems s.out ++ [i]) ++
                            (List.filterMap id q ++ s.remaining)
                            = chunks.map QItem.chunk ++ [webTerminal failure] := by
                          rw [← producerItems_eq, ← hc]
                          simp [List.filterMap_cons, List.append_assoc]
                        have hmem : i ∈ deliveredItems s.out ++ [i] :=
                          List.mem_append_right _ (List.mem_singleton.mpr rfl)
                        have hclosed := terminal_in_front_closes _ _ _ _ _ heq
                          (noTerminal_chunkItems chunks) hmem hterm
                        rw [hclosed, List.append_nil] at heq
                        show deliveredItems (s.out ++ [.data i])
                          = producerItems chunks failure
                        rw [deliveredItems_append, producerItems_eq]
                        simpa [deliveredItems, OutLine.dataItem] using heq
                      · intro _ htruthy
                        refine ⟨s.out, i, rfl, hterm, ?_⟩
                        exact noTerminal_of_noBreak chunks failure _
                          (h3 hsf') hsub htruthy
  | consTimeout =>
      simp only [step]
      split
      · exact ⟨hc, hd, h3, h4, h5⟩
      · next hg =>
          have hsf' : s.finished = false := by
            cases hx : s.finished with
            | false => rfl
            | true => simp [hx] at hg
          have hqe : s.queue = [] := by
            cases hx : s.queue with
            | nil => rfl
            | cons o q => simp [hx] at hg
          cases hdf : s.doneFlag with
          | false =>
              refine ⟨?_, ?_, ?_, ?_, ?_⟩
              · simpa [deliveredItems_append, deliveredItems,
                  OutLine.dataItem] using hc
              · intro hx
                exact Bool.noConfusion hx
              · intro _
                simpa [deliveredItems_append, deliveredItems,
                  OutLine.dataItem] using h3 hsf'
              · intro hx
                exact Bool.noConfusion hx
              · intro hx
                exact Bool.noConfusion hx
          | true =>
              have hrem : s.remaining = [] := hd hdf
              have hc2 := hc
              rw [hqe, hrem] at hc2
              have hdeq : deliveredItems s.out
                  = producerItems chunks failure := by
                simpa using hc2
              refine ⟨?_, ?_, ?_, ?_, ?_⟩
              · simpa [deliveredItems_append, deliveredItems,
                  OutLine.dataItem] using hc
              · intro _
                exact hrem
              · intro hx
                cases hx
              · intro _
                show deliveredItems (s.out ++ [.keepalive])
                  = producerItems chunks failure
                rw [deliveredItems_append]
                simpa [deliveredItems, OutLine.dataItem] using hdeq
              · intro _ htruthy
                exfalso
                have hmem : webTerminal failure ∈ deliveredItems s.out := by
                  rw [hdeq]
                  exact webTerminal_mem_producerItems chunks failure
                have hfb := breaksLoop_eq_false_of_noBreak _ _ (h3 hsf') hmem
                rw [htruthy] at hfb
                exact Bool.noConfusion hfb

theorem webInv_initState (chunks : List String) (failure : Option String) :
    WebInv chunks failure (initState chunks failure) := by
  refine ⟨?_, ?_, ?_, ?_, ?_⟩
  · simp [initState, deliveredItems]
  · intro hx; cases hx
  · intro _; rfl
  · intro hx; cases hx
  · intro hx; cases hx

theorem webInv_run (chunks : List String) (failure : Option String) :
    ∀ (mvs : List Mv) (s : WebState), WebInv chunks failure s →
      WebInv chunks failure (run s mvs) := by
  intro mvs
  induction mvs with
  | nil => intro s h; exact h
  | cons m ms ih => intro s h; exact ih _ (webInv_step chunks failure s m h)

/-- Once the consumer loop of `send_message.generate` has exited
(`finished`), the `data:` lines it yielded are exactly the producer's items
for the turn, in publication order. -/
theorem web_run_delivered (chunks : List String) (failure : Option String)
    (mvs : List Mv)
    (hfin : (run (initState chunks failure) mvs).finished = true) :
    deliveredItems (run (initState chunks failure) mvs).out
      = producerItems chunks failure :=
  (webInv_run chunks failure mvs (initState chunks failure)
    (webInv_initState chunks failure)).finished_delivered hfin

theorem chunkItems_filter_isTerminal (chunks : List String) :
    (chunks.map QItem.chunk).filter QItem.isTerminal = [] := by
  induction chunks with
  | nil => rfl
  | cons c rest ih => simp [QItem.isTerminal, ih]

theorem webTerminal_isTerminal (failure : Option String) :
    (webTerminal failure).isTerminal = true := by
  cases failure <;> rfl

theorem producerItems_filter_isTerminal (chunks : List String)
    (failure : Option String) :
    (producerItems chunks failure).filter QItem.isTerminal
      = [webTerminal failure] := by
  rw [producerItems_eq, List.filter_append, chunkItems_filter_isTerminal]
  simp [webTerminal_isTerminal failure]

theorem producerItems_getLast (chunks : List String) (failure : Option String) :
    (producerItems chunks failure).getLast? = some (webTerminal failure) := by
  rw [producerItems_eq]
  exact List.getLast?_concat _

/-- `true` when in the yielded lines no line at all — keepalive comment or
`data:` line — comes after a terminal `data:` line. -/
def noLineAfterTerminal : List OutLine → Bool
  | [] => true
  | .data i :: rest => if i.isTerminal then rest.isEmpty else noLineAfterTerminal rest
  | .keepalive :: rest => noLineAfterTerminal rest

theorem noLineAfterTerminal_of_noTerminal (out : List OutLine)
    (h : noTerminal (deliveredItems out) = true) :
    noLineAfterTerminal out = true := by
  induction out with
  | nil => rfl
  | cons l rest ih =>
      cases l with
      | keepalive =>
          rw [noLineAfterTerminal]
          exact ih (by simpa [deliveredItems, OutLine.dataItem] using h)
      | data i =>
          have h2 : noTerminal (i :: deliveredItems rest) = true := by
            simpa [deliveredItems, OutLine.dataItem] using h
          rw [noTerminal] at h2
          have hi : i.isTerminal = false := by
            cases hii : i.isTerminal with
            | false => rfl
            | true => rw [hii] at h2; exact Bool.noConfusion h2
          rw [noLineAfterTerminal, hi]
          simp only [if_false, Bool.false_eq_true, ite_false]
          exact ih (by
            cases hnr : noTerminal (deliveredItems rest) with
            | true => rfl
            | false => rw [hi, hnr, Bool.and_false] at h2; exact Bool.noConfusion h2)

theorem noLineAfterTerminal_snoc (pre : List OutLine) (i : QItem)
    (h : noTerminal (deliveredItems pre) = true) :
    noLineAfterTerminal (pre ++ [.data i]) = true := by
  induction pre with
  | nil =>
      rw [List.nil_append, noLineAfterTerminal]
      cases i.isTerminal <;> simp [noLineAfterTerminal]
  | cons l rest ih =>
      cases l with
      | keepalive =>
          rw [List.cons_append, noLineAfterTerminal]
          exact ih (by simpa [deliveredItems, OutLine.dataItem] using h)
      | data j =>
          have h2 : noTerminal (j :: deliveredItems rest) = true := by
            simpa [deliveredItems, OutLine.dataItem] using h
          rw [noTerminal] at h2
          have hj : j.isTerminal = false := by
            cases hjj : j.isTerminal with
            | false => rfl
            | true => rw [hjj] at h2; exact Bool.noConfusion h2
          rw [List.cons_append, noLineAfterTerminal, hj]
          simp only [if_false, Bool.false_eq_true, ite_false]
          exact ih (by
            cases hnr : noTerminal (deliveredItems rest) with
            | true => rfl
            | false => rw [hj, hnr, Bool.and_false] at h2; exact Bool.noConfusion h2)

/-- In every schedule of a web chat turn whose terminal item passes the
break check (payload truthy: `done`, or `error` with non-empty message),
nothing the consumer yields — keepalive comment or data line — comes after
a terminal `data:` line. -/
theorem web_run_noLineAfterTerminal (chunks : List String)
    (failure : Option String) (mvs : List Mv)
    (ht : (webTerminal failure).breaksLoop = true) :
    noLineAfterTerminal (run (initState chunks failure) mvs).out = true := by
  obtain ⟨hc, hd, h3, h4, h5⟩ :=
    webInv_run chunks failure mvs (initState chunks failure)
      (webInv_initState chunks failure)
  cases hfin : (run (initState chunks failure) mvs).finished with
  | false =>
      have hsub : ∀ x ∈ deliveredItems
          (run (initState chunks failure) mvs).out,
          x ∈ producerItems chunks failure := by
        intro x hx
        rw [← hc]
        exact List.mem_append_left _ (List.mem_append_left _ hx)
      exact noLineAfterTerminal_of_noTerminal _
        (noTerminal_of_noBreak chunks failure _ (h3 hfin) hsub ht)
  | true =>
      obtain ⟨pre, i, hout, _, hpre⟩ := h5 hfin ht
      rw [hout]
      exact noLineAfterTerminal_snoc pre i hpre

theorem messageEvents_filter_isTerminal (chunks : List String) :
    (chunks.map SSEEvent.message).filter SSEEvent.isTerminal = [] := by
  induction chunks with
  | nil => rfl
  | cons c rest ih => simp [SSEEvent.isTerminal, ih]

theorem event_generator_filter_isTerminal (sid tid uid : String)
    (chunks : List String) (failure : Option String) :
    (event_generator sid tid uid chunks failure).filter SSEEvent.isTerminal
      = [terminalEvent sid tid (chunks.foldl (· ++ ·) "") failure] := by
  rw [event_generator_eq]
  cases failure <;>
    simp [List.filter_append, messageEvents_filter_isTerminal,
      SSEEvent.isTerminal, terminalEvent]

theorem event_generator_getLast (sid tid uid : String)
    (chunks : List String) (failure : Option String) :
    (event_generator sid tid uid chunks failure).getLast?
      = some (terminalEvent sid tid (chunks.foldl (· ++ ·) "") failure) := by
  rw [event_generator_eq]
  rw [show SSEEvent.session sid tid uid :: chunks.map SSEEvent.message ++
        [terminalEvent sid tid (chunks.foldl (· ++ ·) "") failure]
      = (SSEEvent.session sid tid uid :: chunks.map SSEEvent.message) ++
        [terminalEvent sid tid (chunks.foldl (· ++ ·) "") failure] from rfl]
  exact List.getLast?_concat _

/-- Claim C1: on both streaming paths, every turn's event sequence has
exactly one terminal event and it is last among logical events; when the
generator fails mid-turn a single error event ends the sequence, no
fragment or done event follows it, and the fragments emitted before the
failure remain in the sequence, in order. -/
theorem claim_C1_terminal_unique_and_last (sid tid uid : String)
    (chunks : List String) (failure : Option String) (mvs : List Mv) :
    ((event_generator sid tid uid chunks failure).filter
        SSEEvent.isTerminal).length = 1
    ∧ (event_generator sid tid uid chunks failure).getLast?
        = some (terminalEvent sid tid (chunks.foldl (· ++ ·) "") failure)
    ∧ (∀ e, failure = some e →
        event_generator sid tid uid chunks failure
          = .session sid tid uid ::
              chunks.map SSEEvent.message ++ [.error e])
    ∧ ((run (initState chunks failure) mvs).finished = true →
        deliveredItems (run (initState chunks failure) mvs).out
            = producerItems chunks failure
        ∧ (deliveredItems
              (run (initState chunks failure) mvs).out).filter QItem.isTerminal
            = [webTerminal failure]
        ∧ (deliveredItems (run (initState chunks failure) mvs).out).getLast?
            = some (webTerminal failure)) := by
  refine ⟨?_, event_generator_getLast sid tid uid chunks failure, ?_, ?_⟩
  · rw [event_generator_filter_isTerminal]; rfl
  · intro e hfe
    rw [event_generator_eq, hfe]
    rfl
  · intro hfin
    have hdel := web_run_delivered chunks failure mvs hfin
    rw [hdel]
    exact ⟨rfl, producerItems_filter_isTerminal chunks failure,
      producerItems_getLast chunks failure⟩

/-- Witness for C1 at the events of spec Scenario B: chunks `Hel`, `lo`
then a failure `rate limited`, with a schedule that runs the producer and
consumer to completion. -/
theorem claim_C1_witness :
    (run (initState ["Hel", "lo"] (some "rate limited"))
        [Mv.prod, Mv.cons, Mv.prod, Mv.cons, Mv.prod, Mv.cons]).finished
      = true
    ∧ deliveredItems (run (initState ["Hel", "lo"] (some "rate limited"))
        [Mv.prod, Mv.cons, Mv.prod, Mv.cons, Mv.prod, Mv.cons]).out
      = producerItems ["Hel", "lo"] (some "rate limited")
    ∧ event_generator "s" "t" "u" ["Hel", "lo"] (some "rate limited")
      = .session "s" "t" "u" ::
          (["Hel", "lo"].map SSEEvent.message) ++ [.error "rate limited"] :=
  ⟨by decide,
    ((claim_C1_terminal_unique_and_last "s" "t" "u" ["Hel", "lo"]
        (some "rate limited")
        [Mv.prod, Mv.cons, Mv.prod, Mv.cons, Mv.prod, Mv.cons]).2.2.2
      (by decide)).1,
    (claim_C1_terminal_unique_and_last "s" "t" "u" ["Hel", "lo"]
        (some "rate limited") []).2.2.1 "rate limited" rfl⟩

/-- Claim C2: on a successful turn the `done` event is the last event of
the `/conversation` SSE stream and its `full_response` payload equals the
concatenation, in delivery order, of the chunks of all `message` events. -/
theorem claim_C2_fragments_concat_done (sid tid uid : String)
    (chunks : List String) :
    (event_generator sid tid uid chunks none).getLast?
      = some (.done
          (String.join (fragmentTexts (event_generator sid tid uid chunks none)))
          sid tid)
    ∧ event_generator sid tid uid chunks none
      = .session sid tid uid :: chunks.map SSEEvent.message ++
          [.done (String.join chunks) sid tid] := by
  have hjoin : String.join chunks = chunks.foldl (· ++ ·) "" := rfl
  constructor
  · rw [fragmentTexts_event_generator, event_generator_getLast, hjoin]
    rfl
  · rw [event_generator_eq, hjoin]
    rfl

/-! ## Submission of the user message to the agent

`ConversationAgent.stream` (conversation_agent.py lines 55–59) is declared
`stream(self, message, thread_id)`: its docstring and the unit tests
(`agent.stream("test message", "thread_123")`) pass the user message first
and the thread id second.  The two call sites pass both arguments
positionally, so the first argument binds to `message` and the second to
`thread_id`. -/

/-- The submission one `agent.stream(...)` invocation makes: what the agent
receives as the user message and as the checkpointer thread id. -/
structure StreamCall where
  message : String
  thread_id : String
deriving DecidableEq, Repr

/-- Positional binding of `ConversationAgent.stream(self, message,
thread_id)`: the first positional argument is the message, the second the
thread id. -/
def agentStreamBind (arg1 arg2 : String) : StreamCall :=
  { message := arg1, thread_id := arg2 }

/-- The `agent.stream` invocations made by one run of `event_generator`
(conversation.py line 82): the single call `agent.stream(thread_id,
message)`. -/
def eventGeneratorStreamCalls (thread_id message : String) : List StreamCall :=
  [agentStreamBind thread_id message]

/-- The `agent.stream` invocations made by one run of
`send_message.generate.stream_agent` (chat.py line 235): the single call
`agent.stream(message, session.thread_id)`. -/
def chatStreamCalls (message thread_id : String) : List StreamCall :=
  [agentStreamBind message thread_id]

/-- Claim C3 (evaluation at the failing input): the coordinator does invoke
the generator exactly once per run on both paths, and the web chat path
submits the user message as the message; but the `/conversation` SSE path
submits the thread id in the message's place and the user message as the
thread id — for thread `t-1` and user message `Hello`, the agent receives
message `t-1` on thread `Hello`. -/
theorem claim_C3_thread_submitted_as_message :
    (eventGeneratorStreamCalls "t-1" "Hello").length = 1
    ∧ (chatStreamCalls "Hello" "t-1").length = 1
    ∧ chatStreamCalls "Hello" "t-1"
        = [{ message := "Hello", thread_id := "t-1" }]
    ∧ eventGeneratorStreamCalls "t-1" "Hello"
        = [{ message := "t-1", thread_id := "Hello" }]
    ∧ (eventGeneratorStreamCalls "t-1" "Hello").all
        (fun c => c.message ≠ "Hello") = true := by
  refine ⟨rfl, rfl, rfl, rfl, by decide⟩

/-! ## Keepalive timing

chat.py line 22 fixes the idle interval, and line 267 the consumer's safety
read timeout.  The keepalive task (lines 247–257) repeatedly waits on
`done_event` with the idle interval as timeout and publishes one `None`
marker per wait that times out before the event is set; with instantaneous
loop turnaround, the k-th marker is published at `start + k * interval`,
for every k ≥ 1 with that time before the time `doneAt` at which
`done_event` is set. -/

/-- `SSE_KEEPALIVE_INTERVAL = 15` (chat.py line 22), in seconds. -/
def SSE_KEEPALIVE_INTERVAL : Int := 15

/-- Timeout of `asyncio.wait_for(queue.get(), timeout=60)` (chat.py line
267), in seconds. -/
def consumerReadTimeout : Int := 60

/-- Publication times of the keepalive task started at `start` whose
`done_event` is set at `doneAt`. -/
def keepaliveFiresAt (start doneAt t : Int) : Prop :=
  ∃ k : Int, 1 ≤ k ∧ t = start + k * SSE_KEEPALIVE_INTERVAL ∧ t < doneAt

/-- Counterexample to C4 as stated: when the generator's exception
stringifies to the empty string, the producer publishes `{"error": ""}`;
the consumer yields its `data:` line — the turn's terminal logical event —
but `item.get("done") or item.get("error")` (chat.py line 276) is falsy,
so the loop does not break; the 60 s safety timeout then yields a
keepalive comment AFTER the terminal event before observing `done_event`
and ending the turn. -/
theorem claim_C4_counterexample :
    (run (initState [] (some ""))
        [Mv.prod, Mv.cons, Mv.prodDone, Mv.consTimeout]).out
      = [OutLine.data (QItem.error ""), OutLine.keepalive]
    ∧ (run (initState [] (some ""))
        [Mv.prod, Mv.cons, Mv.prodDone, Mv.consTimeout]).finished = true
    ∧ (QItem.error "").isTerminal = true
    ∧ noLineAfterTerminal
        [OutLine.data (QItem.error ""), OutLine.keepalive] = false := by
  decide

/-- Claim C4 as amended: the idle interval is 15 s and the safety
read-timeout 60 s; while `done_event` is unset, any window longer than the
idle interval contains a keepalive publication (so an idle stream keeps
receiving keepalives, repeating while idle); the safety read-timeout emits
a keepalive line and re-checks completion instead of blocking; and no
keepalive line ever follows the terminal event in the yielded output
provided the terminal item passes the loop's truthiness break check —
`done`, or `error` whose `str(e)` is non-empty.  (With an empty error
message the break is missed and keepalives can follow the terminal, as the
counterexample shows.) -/
theorem claim_C4_keepalive_policy :
    SSE_KEEPALIVE_INTERVAL = 15
    ∧ consumerReadTimeout = 60
    ∧ (∀ start doneAt a b : Int, start ≤ a → b ≤ doneAt →
        a + SSE_KEEPALIVE_INTERVAL < b →
        ∃ t, keepaliveFiresAt start doneAt t ∧ a < t ∧ t < b)
    ∧ (∀ s : WebState, s.finished = false → s.queue = [] →
        (step s .consTimeout).out = s.out ++ [.keepalive]
        ∧ (step s .consTimeout).finished = s.doneFlag)
    ∧ (∀ (chunks : List String) (failure : Option String) (mvs : List Mv),
        (webTerminal failure).breaksLoop = true →
        noLineAfterTerminal (run (initState chunks failure) mvs).out = true) := by
  refine ⟨rfl, rfl, ?_, ?_, ?_⟩
  · intro start doneAt a b hsa hbd hab
    simp only [SSE_KEEPALIVE_INTERVAL] at hab
    have hdiv := Int.ediv_add_emod (a - start) 15
    have hr0 : 0 ≤ (a - start) % 15 := Int.emod_nonneg _ (by norm_num)
    have hr15 : (a - start) % 15 < 15 := Int.emod_lt_of_pos _ (by norm_num)
    refine ⟨start + ((a - start) / 15 + 1) * 15,
      ⟨(a - start) / 15 + 1, by omega, by simp only [SSE_KEEPALIVE_INTERVAL],
        by omega⟩, by omega, by omega⟩
  · intro s h1 h2
    constructor
    · simp [step, h1, h2]
    · simp [step, h1, h2]
  · exact web_run_noLineAfterTerminal

/-- Witness for C4 (amended): the window (0, 16) after start 0 with
completion at 100 contains a keepalive publication; from a fresh turn
state with an empty queue, a consumer read-timeout yields exactly one
keepalive comment; and a completed single-chunk successful turn — whose
`done` terminal passes the break check — has no line after its
terminal. -/
theorem claim_C4_witness :
    (∃ t, keepaliveFiresAt 0 100 t ∧ 0 < t ∧ t < 16)
    ∧ (step (initState ["x"] none) Mv.consTimeout).out
        = (initState ["x"] none).out ++ [OutLine.keepalive]
    ∧ noLineAfterTerminal
        (run (initState ["x"] none)
          [Mv.prod, Mv.cons, Mv.prod, Mv.cons]).out = true :=
  have h := claim_C4_keepalive_policy
  ⟨h.2.2.1 0 100 0 16 (by decide) (by decide) (by decide),
    (h.2.2.2.1 (initState ["x"] none) rfl rfl).1,
    h.2.2.2.2 ["x"] none [Mv.prod, Mv.cons, Mv.prod, Mv.cons] (by decide)⟩

/-! ## Turn cleanup (chat.py lines 284–291)

The `finally` block of `send_message.generate` is a straight-line sequence
over the turn's two background tasks: it cancels `keepalive_task`, awaits
it while swallowing `CancelledError`, then awaits `agent_task`.  The block
is embedded as the ordered list of these actions. -/

inductive TurnTask where
  | keepaliveTask
  | agentTask
deriving DecidableEq, Repr

inductive CleanupAction where
  | cancel (t : TurnTask)
  | awaitTask (t : TurnTask)
deriving DecidableEq, Repr

/-- The cleanup actions of the `finally` block, in program order. -/
def cleanupActions : List CleanupAction :=
  [.cancel .keepaliveTask, .awaitTask .keepaliveTask, .awaitTask .agentTask]

theorem step_out_of_finished (s : WebState) (m : Mv)
    (h : s.finished = true) :
    (step s m).out = s.out ∧ (step s m).finished = true := by
  cases m with
  | prod => cases hr : s.remaining <;> simp [step, hr, h]
  | prodDone => by_cases he : s.remaining.isEmpty <;> simp [step, he, h]
  | keep => cases hd : s.doneFlag <;> simp [step, hd, h]
  | cons => simp [step, h]
  | consTimeout => simp [step, h]

/-- Counterexample to C5 as stated: in the cleanup sequence of the turn no
action cancels (tells to stop) the fragment-producing `agent_task`; it is
only awaited, and as the last action. -/
theorem claim_C5_counterexample :
    (cleanupActions.any
        fun a => a = CleanupAction.cancel TurnTask.agentTask) = false
    ∧ cleanupActions.getLast? = some (.awaitTask .agentTask) := by
  decide

/-- Claim C5 as amended: on cancellation of a turn, the keepalive task is
cancelled first and then awaited, and the fragment-producing agent task is
awaited (joined) to completion — without being told to stop — as the last
cleanup action before the turn's resources are released; moreover once the
consumer loop has exited, no schedule of the remaining activities yields
any further line. -/
theorem claim_C5_cleanup_order :
    cleanupActions
      = [.cancel .keepaliveTask, .awaitTask .keepaliveTask,
          .awaitTask .agentTask]
    ∧ CleanupAction.awaitTask TurnTask.keepaliveTask ∈ cleanupActions
    ∧ CleanupAction.awaitTask TurnTask.agentTask ∈ cleanupActions
    ∧ (∀ (s : WebState) (mvs : List Mv), s.finished = true →
        (run s mvs).out = s.out) := by
  refine ⟨rfl, by decide, by decide, ?_⟩
  intro s mvs
  induction mvs generalizing s with
  | nil => intro _; rfl
  | cons m ms ih =>
      intro h
      have hstep := step_out_of_finished s m h
      rw [run, ih (step s m) hstep.2, hstep.1]

/-- Witness for C5 (amended): after a completed one-chunk turn, running the
producer and keepalive further yields no additional line. -/
theorem claim_C5_witness :
    (run (initState ["x"] none) [Mv.prod, Mv.cons, Mv.prod, Mv.cons]).finished
      = true
    ∧ (run (run (initState ["x"] none) [Mv.prod, Mv.cons, Mv.prod, Mv.cons])
          [Mv.keep, Mv.prodDone, Mv.cons]).out
      = (run (initState ["x"] none) [Mv.prod, Mv.cons, Mv.prod, Mv.cons]).out :=
  ⟨by decide,
    claim_C5_cleanup_order.2.2.2
      (run (initState ["x"] none) [Mv.prod, Mv.cons, Mv.prod, Mv.cons])
      [Mv.keep, Mv.prodDone, Mv.cons] (by decide)⟩

/-! ## Sessions: model and MongoDB documents (sessions_model.py)

Datetimes are modelled as integers (a linear clock reading); UUID
generation and `utc_now()` readings become explicit parameters where the
code calls them. -/

/-- `SessionsModel` (sessions_model.py lines 39–55). -/
structure SessionsModel where
  session_id : String
  thread_id : String
  user_id : String
  name : String
  created_at : Int
  updated_at : Int
deriving DecidableEq, Repr

/-- A MongoDB document of the sessions collection with all seven keys the
code writes; `mongoId` stands for the `_id` key. -/
structure SessionDoc where
  mongoId : String
  session_id : String
  thread_id : String
  user_id : String
  name : String
  created_at : Int
  updated_at : Int
deriving DecidableEq, Repr

/-- `SessionsModel.to_document` (lines 62–72): `_id` is set to the
session id. -/
def SessionsModel.to_document (m : SessionsModel) : SessionDoc :=
  { mongoId := m.session_id, session_id := m.session_id,
    thread_id := m.thread_id, user_id := m.user_id, name := m.name,
    created_at := m.created_at, updated_at := m.updated_at }

/-- Python `a or b` on strings: the empty string is the only falsy
string, so `a or b` is `b` when `a` is empty and `a` otherwise. -/
def orFalsy (a b : String) : String := if a = "" then b else a

/-- `SessionsModel.from_document` (lines 74–84), on documents that carry
all keys (as every document written by `to_document` does): the id fields
fall back through Python truthiness — `doc.get("session_id") or
str(doc.get("_id"))` and `doc.get("thread_id") or doc.get("session_id") or
str(doc.get("_id"))` — and `str` of a string is itself. -/
def SessionsModel.from_document (doc : SessionDoc) : SessionsModel :=
  { session_id := orFalsy doc.session_id doc.mongoId,
    thread_id := orFalsy doc.thread_id (orFalsy doc.session_id doc.mongoId),
    user_id := doc.user_id,
    name := doc.name,
    created_at := doc.created_at,
    updated_at := doc.updated_at }

/-- Counterexample to C10 as stated: a model whose `thread_id` is the empty
string and whose `session_id` is not does not survive the round-trip —
parsing falls back from the empty (falsy) `thread_id` to the session id. -/
theorem claim_C10_counterexample :
    SessionsModel.from_document (SessionsModel.to_document
        { session_id := "s", thread_id := "", user_id := "u", name := "n",
          created_at := 0, updated_at := 0 })
      ≠ { session_id := "s", thread_id := "", user_id := "u", name := "n",
          created_at := 0, updated_at := 0 }
    ∧ (SessionsModel.from_document (SessionsModel.to_document
        { session_id := "s", thread_id := "", user_id := "u", name := "n",
          created_at := 0, updated_at := 0 })).thread_id = "s" := by
  decide

/-- Claim C10 as amended: `from_document (to_document m) = m` for every
model whose `thread_id` is non-empty (or whose `session_id` is itself
empty); all six fields are preserved.  Only the Python-falsy corner —
empty `thread_id` with non-empty `session_id` — breaks the round-trip. -/
theorem claim_C10_roundtrip (m : SessionsModel)
    (h : m.thread_id ≠ "" ∨ m.session_id = "") :
    SessionsModel.from_document (SessionsModel.to_document m) = m := by
  obtain ⟨sid, tid, uid, nm, ca, ua⟩ := m
  rcases h with h | h
  · simp only [SessionsModel.to_document, SessionsModel.from_document] at *
    simp [orFalsy, h]
  · simp only [SessionsModel.to_document, SessionsModel.from_document] at *
    subst h
    by_cases htid : tid = "" <;> simp [orFalsy, htid]

/-- Witness for C10 (amended) at a concrete session with a non-empty
thread id. -/
theorem claim_C10_witness :
    ({ session_id := "s1", thread_id := "s1", user_id := "u1",
       name := "Conversa", created_at := 3, updated_at := 7 } :
        SessionsModel).thread_id ≠ ""
    ∧ SessionsModel.from_document (SessionsModel.to_document
        { session_id := "s1", thread_id := "s1", user_id := "u1",
          name := "Conversa", created_at := 3, updated_at := 7 })
      = { session_id := "s1", thread_id := "s1", user_id := "u1",
          name := "Conversa", created_at := 3, updated_at := 7 } :=
  ⟨by decide,
    claim_C10_roundtrip
      { session_id := "s1", thread_id := "s1", user_id := "u1",
        name := "Conversa", created_at := 3, updated_at := 7 }
      (Or.inl (by decide))⟩

/-! ## Session service over the collection (session_service.py)

The collection is the list of its documents in insertion order; queries
match on the `session_id` key exactly as the service's filters
(`{"session_id": session_id}`) do.  MongoDB's unique `_id` index, together
with the fact that every insert goes through `create_session` (which
writes `_id = session_id`), gives the collection invariant `wfStore`. -/

/-- `collection.find_one({"session_id": sid})`: first matching document. -/
def find_one (docs : List SessionDoc) (sid : String) : Option SessionDoc :=
  docs.find? (fun d => d.session_id == sid)

/-- The `$set {"updated_at": now}` update applied by `touch_session`. -/
def touchDoc (now : Int) (d : SessionDoc) : SessionDoc :=
  { d with updated_at := now }

/-- `collection.find_one_and_update({"session_id": sid}, {"$set": ...},
return_document=True)`: update the first matching document, returning the
collection afterwards and the updated document. -/
def find_one_and_update (sid : String) (f : SessionDoc → SessionDoc) :
    List SessionDoc → List SessionDoc × Option SessionDoc
  | [] => ([], none)
  | d :: rest =>
      if d.session_id == sid then (f d :: rest, some (f d))
      else
        let r := find_one_and_update sid f rest
        (d :: r.1, r.2)

/-- `SessionService.get_session` (lines 85–99). -/
def get_session (docs : List SessionDoc) (sid : String) :
    Option SessionsModel :=
  (find_one docs sid).map SessionsModel.from_document

/-- `SessionService.touch_session` (lines 132–152) at wall-clock reading
`now` (the value of `utc_now()`); returns the collection afterwards and
the parsed updated document. -/
def touch_session (docs : List SessionDoc) (sid : String) (now : Int) :
    List SessionDoc × Option SessionsModel :=
  let r := find_one_and_update sid (touchDoc now) docs
  (r.1, r.2.map SessionsModel.from_document)

/-- `collection.delete_one({"session_id": sid})`: remove the first
matching document; also yields `deleted_count`. -/
def delete_one (sid : String) :
    List SessionDoc → List SessionDoc × Nat
  | [] => ([], 0)
  | d :: rest =>
      if d.session_id == sid then (rest, 1)
      else
        let r := delete_one sid rest
        (d :: r.1, r.2)

/-- `SessionService.delete_session` (lines 181–192): `deleted_count > 0`. -/
def delete_session (docs : List SessionDoc) (sid : String) :
    List SessionDoc × Bool :=
  let r := delete_one sid docs
  (r.1, decide (r.2 > 0))

/-- Descending `updated_at` order used by
`.sort("updated_at", -1)`. -/
def updatedDesc (a b : SessionDoc) : Bool :=
  b.updated_at ≤ a.updated_at

/-- `SessionService.list_user_sessions` (lines 116–130): filter by
`user_id`, sort by `updated_at` descending, parse each document. -/
def list_user_sessions (docs : List SessionDoc) (uid : String) :
    List SessionsModel :=
  (((docs.filter (fun d => d.user_id == uid)).mergeSort updatedDesc).map
    SessionsModel.from_document)

/-- Collection invariant: `_id = session_id` on every document (all writes
go through `to_document`) and `_id` is unique (MongoDB primary key). -/
def wfStore (docs : List SessionDoc) : Prop :=
  (∀ d ∈ docs, d.mongoId = d.session_id)
  ∧ (docs.map (fun d => d.session_id)).Nodup

theorem from_document_session_id (d : SessionDoc)
    (h : d.mongoId = d.session_id) :
    (SessionsModel.from_document d).session_id = d.session_id := by
  rw [SessionsModel.from_document]
  by_cases hs : d.session_id = "" <;> simp [orFalsy, hs, h]

/-- `find_one_and_update` on a collection whose first match for `sid` is
`d`: the updated document is returned and is the new first match, provided
the update preserves the key. -/
theorem find_one_and_update_found (sid : String) (f : SessionDoc → SessionDoc)
    (hpres : ∀ d, (f d).session_id = d.session_id) :
    ∀ (docs : List SessionDoc) (d : SessionDoc),
      find_one docs sid = some d →
      (find_one_and_update sid f docs).2 = some (f d)
      ∧ find_one (find_one_and_update sid f docs).1 sid = some (f d) := by
  intro docs
  induction docs with
  | nil => intro d h; rw [find_one, List.find?_nil] at h; cases h
  | cons a rest ih =>
      intro d h
      cases hcond : a.session_id == sid with
      | true =>
          have hfacond : ((f a).session_id == sid) = true := by
            rw [hpres a]; exact hcond
          have hda : a = d := by
            rw [find_one, @List.find?_cons_of_pos _
              (fun x => x.session_id == sid) a rest hcond] at h
            exact Option.some.inj h
          subst hda
          constructor
          · rw [find_one_and_update, if_pos hcond]
          · rw [find_one_and_update, if_pos hcond, find_one,
              @List.find?_cons_of_pos _
                (fun x => x.session_id == sid) (f a) rest hfacond]
      | false =>
          have hcond' : ¬ ((a.session_id == sid) = true) := by
            simp [hcond]
          rw [find_one, @List.find?_cons_of_neg _
            (fun x => x.session_id == sid) a rest hcond'] at h
          have hr := ih d h
          constructor
          · rw [find_one_and_update, if_neg hcond']
            exact hr.1
          · rw [find_one_and_update, if_neg hcond']
            show List.find? (fun x => x.session_id == sid)
                (a :: (find_one_and_update sid f rest).1) = some (f d)
            rw [@List.find?_cons_of_neg _
              (fun x => x.session_id == sid) a
              (find_one_and_update sid f rest).1 hcond']
            exact hr.2

/-- Counterexample to C6 as stated: `touch_session` writes the wall-clock
reading unconditionally; when the clock reads 3 while the stored
`updated_at` is 5 (a backwards clock step), the new value is smaller than
the previous one. -/
theorem claim_C6_counterexample :
    get_session
        [{ mongoId := "s1", session_id := "s1", thread_id := "s1",
           user_id := "u1", name := "n", created_at := 0, updated_at := 5 }]
        "s1"
      = some { session_id := "s1", thread_id := "s1", user_id := "u1",
               name := "n", created_at := 0, updated_at := 5 }
    ∧ (touch_session
        [{ mongoId := "s1", session_id := "s1", thread_id := "s1",
           user_id := "u1", name := "n", created_at := 0, updated_at := 5 }]
        "s1" 3).2
      = some { session_id := "s1", thread_id := "s1", user_id := "u1",
               name := "n", created_at := 0, updated_at := 3 }
    ∧ ¬ ((5 : Int) ≤ 3) := by
  decide

/-- Claim C6 as amended: provided the wall-clock readings are
non-decreasing (`utc_now()` is a wall clock and the code applies no
clamp), `touch_session` sets `updated_at` to the clock reading, the
result's `updated_at` never decreases below the previous value, and a
second immediate touch at a no-earlier reading never decreases it
further. -/
theorem claim_C6_touch_monotone (docs : List SessionDoc) (sid : String)
    (now now2 : Int) (prev : SessionsModel)
    (hprev : get_session docs sid = some prev)
    (hclock : prev.updated_at ≤ now) (hclock2 : now ≤ now2) :
    ∃ m m2 : SessionsModel,
      (touch_session docs sid now).2 = some m
      ∧ m.updated_at = now
      ∧ prev.updated_at ≤ m.updated_at
      ∧ (touch_session (touch_session docs sid now).1 sid now2).2 = some m2
      ∧ m2.updated_at = now2
      ∧ m.updated_at ≤ m2.updated_at := by
  rw [get_session] at hprev
  obtain ⟨d, hd, hparse⟩ := Option.map_eq_some'.mp hprev
  have h1 := find_one_and_update_found sid (touchDoc now)
    (fun _ => rfl) docs d hd
  have h2 := find_one_and_update_found sid (touchDoc now2)
    (fun _ => rfl) (find_one_and_update sid (touchDoc now) docs).1
    (touchDoc now d) h1.2
  refine ⟨SessionsModel.from_document (touchDoc now d),
    SessionsModel.from_document (touchDoc now2 (touchDoc now d)),
    ?_, rfl, ?_, ?_, rfl, ?_⟩
  · show Option.map SessionsModel.from_document
        (find_one_and_update sid (touchDoc now) docs).2
      = some (SessionsModel.from_document (touchDoc now d))
    rw [h1.1]
    rfl
  · have hup : (SessionsModel.from_document (touchDoc now d)).updated_at
        = now := rfl
    rw [hup]
    exact hclock
  · show Option.map SessionsModel.from_document
        (find_one_and_update sid (touchDoc now2)
          (find_one_and_update sid (touchDoc now) docs).1).2
      = some (SessionsModel.from_document (touchDoc now2 (touchDoc now d)))
    rw [h2.1]
    rfl
  · exact hclock2

/-- Witness for C6 (amended): touching twice at readings 5 then 7 after a
stored value 5. -/
theorem claim_C6_witness :
    get_session
        [{ mongoId := "s1", session_id := "s1", thread_id := "s1",
           user_id := "u1", name := "n", created_at := 0, updated_at := 5 }]
        "s1"
      = some { session_id := "s1", thread_id := "s1", user_id := "u1",
               name := "n", created_at := 0, updated_at := 5 }
    ∧ ∃ m m2 : SessionsModel,
      (touch_session
          [{ mongoId := "s1", session_id := "s1", thread_id := "s1",
             user_id := "u1", name := "n", created_at := 0, updated_at := 5 }]
          "s1" 5).2 = some m
      ∧ m.updated_at = 5
      ∧ ({ session_id := "s1", thread_id := "s1", user_id := "u1",
           name := "n", created_at := 0, updated_at := 5 } :
            SessionsModel).updated_at ≤ m.updated_at
      ∧ (touch_session
          (touch_session
            [{ mongoId := "s1", session_id := "s1", thread_id := "s1",
               user_id := "u1", name := "n", created_at := 0,
               updated_at := 5 }]
            "s1" 5).1 "s1" 7).2 = some m2
      ∧ m2.updated_at = 7
      ∧ m.updated_at ≤ m2.updated_at :=
  ⟨by decide,
    claim_C6_touch_monotone
      [{ mongoId := "s1", session_id := "s1", thread_id := "s1",
         user_id := "u1", name := "n", created_at := 0, updated_at := 5 }]
      "s1" 5 7
      { session_id := "s1", thread_id := "s1", user_id := "u1",
        name := "n", created_at := 0, updated_at := 5 }
      (by decide) (by decide) (by decide)⟩

theorem delete_one_mem (sid : String) :
    ∀ (docs : List SessionDoc) (x : SessionDoc),
      x ∈ (delete_one sid docs).1 → x ∈ docs := by
  intro docs
  induction docs with
  | nil => intro x h; simp [delete_one] at h
  | cons a rest ih =>
      intro x h
      cases hcond : a.session_id == sid with
      | true =>
          rw [delete_one, if_pos hcond] at h
          exact List.mem_cons_of_mem a h
      | false =>
          rw [delete_one, if_neg (by simp [hcond])] at h
          rcases List.mem_cons.mp h with rfl | h2
          · exact List.mem_cons_self x rest
          · exact List.mem_cons_of_mem a (ih x h2)

theorem find_one_delete_none (sid : String) :
    ∀ docs : List SessionDoc,
      (docs.map (fun d => d.session_id)).Nodup →
      find_one (delete_one sid docs).1 sid = none := by
  intro docs
  induction docs with
  | nil => intro _; rfl
  | cons a rest ih =>
      intro hnd
      rw [List.map_cons, List.nodup_cons] at hnd
      cases hcond : a.session_id == sid with
      | true =>
          rw [delete_one, if_pos hcond]
          show List.find? (fun x => x.session_id == sid) rest = none
          rw [List.find?_eq_none]
          intro x hx hpx
          apply hnd.1
          have hxs : x.session_id = sid := beq_iff_eq.mp hpx
          have has : a.session_id = sid := beq_iff_eq.mp hcond
          rw [has, ← hxs]
          exact List.mem_map_of_mem _ hx
      | false =>
          rw [delete_one, if_neg (by simp [hcond])]
          show List.find? (fun x => x.session_id == sid)
            (a :: (delete_one sid rest).1) = none
          rw [@List.find?_cons_of_neg _ (fun x => x.session_id == sid) a
            (delete_one sid rest).1 (by simp [hcond])]
          exact ih hnd.2

/-- Result of the web `delete_session` handler (chat.py lines 89–119):
the thread ids that still have persisted history, the session documents
afterwards, and whether the handler answered success (`false` stands for
the 404 path). -/
structure WebDeleteResult where
  histories : List String
  docs : List SessionDoc
  ok : Bool
deriving DecidableEq, Repr

/-- chat.py lines 89–119: resolve the session and check ownership (404
otherwise), then best-effort delete the thread's checkpoint — an exception
(`historyDeleteFails`) is caught and only logged — then delete the session
document and answer success. -/
def web_delete_session (histories : List String) (docs : List SessionDoc)
    (sid uid : String) (historyDeleteFails : Bool) : WebDeleteResult :=
  match get_session docs sid with
  | none => { histories := histories, docs := docs, ok := false }
  | some session =>
      if session.user_id == uid then
        { histories :=
            if historyDeleteFails then histories
            else histories.filter (fun t => !(t == session.thread_id)),
          docs := (delete_session docs sid).1,
          ok := true }
      else { histories := histories, docs := docs, ok := false }

/-- Claim C7: once `delete_session` has removed a session, `get_session`
answers `none` and the id no longer appears in any user's session list;
the web delete handler, for an owned session, removes the session metadata
and answers success whether or not the checkpoint deletion raises, and on
a successful checkpoint deletion the thread's history is gone too. -/
theorem claim_C7_delete_terminal (docs : List SessionDoc) (sid : String)
    (hwf : wfStore docs)
    (hdel : (delete_session docs sid).2 = true) :
    get_session (delete_session docs sid).1 sid = none
    ∧ (∀ (uid : String) (m : SessionsModel),
        m ∈ list_user_sessions (delete_session docs sid).1 uid →
        m.session_id ≠ sid)
    ∧ (∀ (histories : List String) (uid : String) (fails : Bool)
        (session : SessionsModel),
        get_session docs sid = some session → session.user_id = uid →
        (web_delete_session histories docs sid uid fails).ok = true
        ∧ (web_delete_session histories docs sid uid fails).docs
            = (delete_session docs sid).1
        ∧ (fails = false →
            session.thread_id
              ∉ (web_delete_session histories docs sid uid fails).histories)) := by
  have hnone : find_one (delete_one sid docs).1 sid = none :=
    find_one_delete_none sid docs hwf.2
  refine ⟨?_, ?_, ?_⟩
  · show (find_one (delete_one sid docs).1 sid).map
        SessionsModel.from_document = none
    rw [hnone]
    rfl
  · intro uid m hm
    rw [list_user_sessions] at hm
    obtain ⟨d, hd1, hd2⟩ := List.mem_map.mp hm
    have hd3 : d ∈ (delete_session docs sid).1.filter
        (fun x => x.user_id == uid) := List.mem_mergeSort.mp hd1
    have hd4 : d ∈ (delete_session docs sid).1 :=
      (List.mem_filter.mp hd3).1
    have hd5 : d ∈ docs := delete_one_mem sid docs d hd4
    have hid : (SessionsModel.from_document d).session_id = d.session_id :=
      from_document_session_id d (hwf.1 d hd5)
    rw [← hd2, hid]
    intro hcontra
    have := (List.find?_eq_none.mp hnone) d hd4
    apply this
    exact beq_iff_eq.mpr hcontra
  · intro histories uid fails session hget hu
    have hu' : (session.user_id == uid) = true := beq_iff_eq.mpr hu
    rw [web_delete_session, hget]
    simp only [hu', if_true]
    refine ⟨trivial, trivial, ?_⟩
    intro hfails hmem
    rw [hfails] at hmem
    simp only [Bool.false_eq_true, if_false] at hmem
    have := (List.mem_filter.mp hmem).2
    simp at this

/-- Witness for C7: deleting the only session of user `u1`. -/
theorem claim_C7_witness :
    wfStore
      [{ mongoId := "s1", session_id := "s1", thread_id := "s1",
         user_id := "u1", name := "n", created_at := 0, updated_at := 5 }]
    ∧ (delete_session
        [{ mongoId := "s1", session_id := "s1", thread_id := "s1",
           user_id := "u1", name := "n", created_at := 0, updated_at := 5 }]
        "s1").2 = true
    ∧ get_session
        (delete_session
          [{ mongoId := "s1", session_id := "s1", thread_id := "s1",
             user_id := "u1", name := "n", created_at := 0, updated_at := 5 }]
          "s1").1 "s1" = none :=
  ⟨⟨by decide, by decide⟩, by decide,
    (claim_C7_delete_terminal
      [{ mongoId := "s1", session_id := "s1", thread_id := "s1",
         user_id := "u1", name := "n", created_at := 0, updated_at := 5 }]
      "s1" ⟨by decide, by decide⟩ (by decide)).1⟩

/-! ## History projection (`ConversationAgent.get_history`,
conversation_agent.py lines 117–145)

The checkpointer interaction is the function's only effect:
`self._checkpointer.get_tuple(config)` either raises, or returns a falsy
tuple/checkpoint, or yields the checkpoint's `channel_values.messages`
list (empty when the key is missing).  The `try` spans the whole lookup,
and the fall-through in every non-successful case is `return []`. -/

/-- A message found in a checkpoint: a `HumanMessage`, an `AIMessage`, or
any other message class. -/
inductive HistMsg where
  | human (content : String)
  | ai (content : String)
  | other (content : String)
deriving DecidableEq, Repr

def HistMsg.content : HistMsg → String
  | .human c => c
  | .ai c => c
  | .other c => c

/-- A `{role, content}` dictionary of the projected history. -/
structure RoleMsg where
  role : String
  content : String
deriving DecidableEq, Repr

/-- `ConversationAgent.get_history`: `.error` models `get_tuple` raising,
`.ok none` a missing/falsy checkpoint tuple, `.ok (some msgs)` the
messages of the checkpoint.  The role is `user` exactly for
`HumanMessage` instances and `assistant` for everything else. -/
def get_history (fetch : Except String (Option (List HistMsg))) :
    List RoleMsg :=
  match fetch with
  | .error _ => []
  | .ok none => []
  | .ok (some msgs) =>
      msgs.map fun m =>
        match m with
        | .human c => { role := "user", content := c }
        | .ai c => { role := "assistant", content := c }
        | .other c => { role := "assistant", content := c }

/-- Claim C8: `get_history` never raises (it is a total function of the
fetch outcome) and returns the empty list both when no history exists and
when the persistence read fails; on success it returns the messages in
order as `{role, content}` pairs whose role is always `user` or
`assistant`. -/
theorem claim_C8_get_history_best_effort :
    (∀ e, get_history (.error e) = [])
    ∧ get_history (.ok none) = []
    ∧ get_history (.ok (some [])) = []
    ∧ (∀ msgs, (get_history (.ok (some msgs))).map RoleMsg.content
        = msgs.map HistMsg.content)
    ∧ (∀ msgs, ((get_history (.ok (some msgs))).all
        fun r => r.role == "user" || r.role == "assistant") = true)
    ∧ (∀ msgs, (get_history (.ok (some msgs))).length = msgs.length) := by
  refine ⟨fun e => rfl, rfl, rfl, ?_, ?_, ?_⟩
  · intro msgs
    induction msgs with
    | nil => rfl
    | cons m rest ih =>
        cases m <;> simp [get_history, HistMsg.content] at ih ⊢ <;>
          exact ih
  · intro msgs
    induction msgs with
    | nil => rfl
    | cons m rest ih =>
        cases m <;> simp [get_history] at ih ⊢ <;> exact ih
  · intro msgs
    rw [get_history, List.length_map]

/-! ## Session creation (C9)

`SessionService.create_session(self, data)` (session_service.py lines
53–56) takes a single `SessionCreate` value.  The `/conversation` handlers
(conversation.py lines 150–153 for a turn without a session id, lines
189–192 for POST /conversation/session) instead call
`session_service.create_session(user_id=..., name=...)`; Python binds a
keyword-only call by matching each keyword against a parameter name and
requires every parameter without default to be supplied, raising
`TypeError` otherwise.  The web handler (chat.py line 79) passes one
positional `SessionCreate` argument. -/

/-- Python binding of a keyword-only call against parameters that have no
defaults: every keyword must name a parameter and every parameter must be
supplied. -/
def kwargsBind (params kwargs : List String) : Bool :=
  kwargs.all (fun k => params.contains k)
    && params.all (fun p => kwargs.contains p)

/-- Python binding of a positional-only call against parameters without
defaults. -/
def positionalBind (params : List String) (nargs : Nat) : Bool :=
  nargs == params.length

/-- Parameters (after `self`) of `SessionService.create_session`. -/
def create_session_params : List String := ["data"]

/-- Keywords of the `create_session(user_id=..., name=...)` calls in
conversation.py lines 150–153 and 189–192. -/
def conversation_create_call_kwargs : List String := ["user_id", "name"]

/-- `SessionCreate.to_session` (sessions_model.py lines 25–36) with the
generated UUID, the `utc_now()` reading and its formatted timestamp as
parameters.  `self.name or f"Conversa {...}"` falls back on Python-falsy
names, i.e. both `None` and the empty string. -/
def to_session (user_id : String) (name : Option String) (freshId : String)
    (now : Int) (stamp : String) : SessionsModel :=
  { session_id := freshId,
    thread_id := freshId,
    user_id := user_id,
    name :=
      match name with
      | none => "Conversa " ++ stamp
      | some n => if n = "" then "Conversa " ++ stamp else n,
    created_at := now,
    updated_at := now }

/-- Claim C9 (evaluation at the failing input): `to_session` itself does
give a session whose `thread_id` equals its freshly generated id, with a
timestamped default name and both timestamps set to the clock reading, and
the web handler's single positional `SessionCreate` argument binds; but
the `/conversation` create paths pass keywords `user_id`/`name` to a
method whose only parameter is `data`, so the call raises `TypeError` and
no session is created on those paths. -/
theorem claim_C9_create_call_type_error :
    kwargsBind create_session_params conversation_create_call_kwargs = false
    ∧ positionalBind create_session_params 1 = true
    ∧ (∀ uid name freshId now stamp,
        (to_session uid name freshId now stamp).thread_id = freshId
        ∧ (to_session uid name freshId now stamp).session_id = freshId
        ∧ (to_session uid name freshId now stamp).user_id = uid
        ∧ (to_session uid name freshId now stamp).created_at = now
        ∧ (to_session uid name freshId now stamp).updated_at = now)
    ∧ (∀ uid freshId now stamp,
        (to_session uid none freshId now stamp).name = "Conversa " ++ stamp)
    ∧ (∀ uid nm freshId now stamp, nm ≠ "" →
        (to_session uid (some nm) freshId now stamp).name = nm) := by
  refine ⟨by decide, rfl, ?_, ?_, ?_⟩
  · intro uid name freshId now stamp
    exact ⟨rfl, rfl, rfl, rfl, rfl⟩
  · intro uid freshId now stamp
    rfl
  · intro uid nm freshId now stamp hnm
    rw [to_session]
    simp [hnm]

/-- Witness for C9 (the custom-name clause has a hypothesis): a non-empty
custom name is kept. -/
theorem claim_C9_witness :
    kwargsBind create_session_params conversation_create_call_kwargs = false
    ∧ (to_session "u1" (some "My Chat") "id-1" 4 "01/01/2026 00:00").name
      = "My Chat" :=
  ⟨(claim_C9_create_call_type_error).1,
    (claim_C9_create_call_type_error).2.2.2.2 "u1" "My Chat" "id-1" 4
      "01/01/2026 00:00" (by decide)⟩

end LlmService
